import Mathlib

/-!
# Verification of the Dashboard table-query pipeline

Shallow embedding of the data-handling core of `src/app.py` (a Streamlit
dashboard over a pandas DataFrame), together with proofs of the spec's
testable properties.

Modelling conventions:
* A pandas DataFrame is a `List Row`; row order is list order.
* A possibly-missing (NaN) cell of a filter/group column is an `Option`;
  numeric measure columns (`Sales`, `Profit`) are exact rationals `ℚ`.
* `df[mask]` boolean-mask selection is `List.filter`.
* `Series.isin(values)` is membership in the allowed list; a missing value
  never matches, because every allowed list in the app is drawn from
  `dropna().unique()` and so contains no NaN.
* IEEE-754 special values that the app's unguarded division can produce are
  modelled exactly by `PyNum` (a rational, `+inf`, `-inf`, or `nan`).
-/

namespace Dashboard

/-- One record of the financial dataset.  Fields mirror the columns the app
reads: `Year`, `Country`, `Segment`, `Product`, `Sales`, `Profit`,
`Discount Band`, `Month Name`.  Filter/group columns may be missing (NaN). -/
structure Row where
  year : Option Int
  country : Option String
  segment : Option String
  product : Option String
  sales : ℚ
  profit : ℚ
  discountBand : Option String
  monthName : Option String
deriving DecidableEq

/-- The three sidebar filters of the app: `year_filter`, `country_filter`,
`segment_filter` (each a multiselect over the non-null distinct values of the
column).  Every call of the app's filter step constrains exactly these three
columns. -/
structure FilterSpec where
  yearFilter : List Int
  countryFilter : List String
  segmentFilter : List String
deriving DecidableEq

/-- `Series.isin(allowed)` on one cell: a present value matches iff it is in
the allowed list; a missing value (NaN) never matches, since the allowed
lists are built from `dropna().unique()` and hold no NaN. -/
def isin {α : Type} [DecidableEq α] (v : Option α) (allowed : List α) : Bool :=
  match v with
  | none => false
  | some x => allowed.contains x

/-- The conjunction of the three `isin` masks of
`df[(df["Year"].isin(year_filter)) & (df["Country"].isin(country_filter)) &
(df["Segment"].isin(segment_filter))]`, evaluated at one row. -/
def rowPasses (r : Row) (f : FilterSpec) : Bool :=
  isin r.year f.yearFilter && isin r.country f.countryFilter &&
    isin r.segment f.segmentFilter

/-- `filtered_df`: boolean-mask selection keeps exactly the rows passing all
three masks, in their original order. -/
def applyFilter (T : List Row) (f : FilterSpec) : List Row :=
  T.filter (fun r => rowPasses r f)

/-- Ascending insertion into a sorted list (ties keep the existing element
first). -/
def insertAsc {α : Type} [LinearOrder α] (x : α) : List α → List α
  | [] => [x]
  | y :: ys => if x ≤ y then x :: y :: ys else y :: insertAsc x ys

/-- Ascending sort; models `sorted(...)` and the ascending key order of
pandas `groupby` (`sort=True` default). -/
def sortAsc {α : Type} [LinearOrder α] : List α → List α
  | [] => []
  | x :: xs => insertAsc x (sortAsc xs)

/-- `year_options = sorted(df["Year"].dropna().unique())`. -/
def year_options (T : List Row) : List Int :=
  sortAsc (T.filterMap Row.year).dedup

/-- `country_options = sorted(df["Country"].dropna().unique())`. -/
def country_options (T : List Row) : List String :=
  sortAsc (T.filterMap Row.country).dedup

/-- `segment_options = sorted(df["Segment"].dropna().unique())`. -/
def segment_options (T : List Row) : List String :=
  sortAsc (T.filterMap Row.segment).dedup

/-- The app's default filter state: each multiselect starts with every option
of its column selected (`default=year_options` etc.). -/
def defaultSpec (T : List Row) : FilterSpec :=
  ⟨year_options T, country_options T, segment_options T⟩

/-! ## Trend metrics (`src/app.py` lines 245-255)

The metrics block runs only under `if len(sales_trend_df) > 1:`; inside it
the app computes
`sales_change = Sales.iloc[-1] - Sales.iloc[0]`,
`pct_change = (sales_change / Sales.iloc[0]) * 100`, and displays the
latest value, the change, and `Sales.mean()`.  The division has no zero
guard: numpy evaluates `x / 0` to `+inf`, `-inf` or `nan` (emitting only a
runtime warning), which `PyNum` captures exactly. -/

/-- A numpy scalar as produced by the app's arithmetic: a finite rational or
an IEEE-754 special value. -/
inductive PyNum where
  | fin (q : ℚ)
  | posInf
  | negInf
  | nan
deriving DecidableEq

/-- numpy true division: for a zero divisor the result is `+inf`, `-inf` or
`nan` according to the sign of the dividend (no exception is raised). -/
def pydiv (x y : ℚ) : PyNum :=
  if y = 0 then
    if 0 < x then PyNum.posInf else if x < 0 then PyNum.negInf else PyNum.nan
  else PyNum.fin (x / y)

/-- numpy multiplication of a possibly non-finite scalar by a rational. -/
def pymul (p : PyNum) (c : ℚ) : PyNum :=
  match p with
  | PyNum.fin q => PyNum.fin (q * c)
  | PyNum.posInf =>
      if 0 < c then PyNum.posInf else if c < 0 then PyNum.negInf else PyNum.nan
  | PyNum.negInf =>
      if 0 < c then PyNum.negInf else if c < 0 then PyNum.posInf else PyNum.nan
  | PyNum.nan => PyNum.nan

/-- The `Sales` column of an ordered (period, value) series. -/
def seriesVals (s : List (Int × ℚ)) : List ℚ :=
  s.map Prod.snd

/-- "Latest Year" metric: `Sales.iloc[-1]`, displayed only when the series
has more than one point (the whole metrics block is guarded by
`len(sales_trend_df) > 1`); absent otherwise. -/
def trend_latest (s : List (Int × ℚ)) : Option ℚ :=
  if 1 < s.length then some ((seriesVals s).getLastD 0) else none

/-- "Total Change" metric: `sales_change = Sales.iloc[-1] - Sales.iloc[0]`,
absent when the series has fewer than 2 points. -/
def trend_delta (s : List (Int × ℚ)) : Option ℚ :=
  if 1 < s.length then
    some ((seriesVals s).getLastD 0 - (seriesVals s).headD 0)
  else none

/-- Percent change: `(sales_change / Sales.iloc[0]) * 100`, computed with no
zero guard, absent when the series has fewer than 2 points. -/
def trend_pctChange (s : List (Int × ℚ)) : Option PyNum :=
  if 1 < s.length then
    some (pymul
      (pydiv ((seriesVals s).getLastD 0 - (seriesVals s).headD 0)
        ((seriesVals s).headD 0)) 100)
  else none

/-- "Average Sales" metric: `Sales.mean()`, displayed under the same
`len > 1` guard as the other metrics. -/
def trend_average (s : List (Int × ℚ)) : Option ℚ :=
  if 1 < s.length then some ((seriesVals s).sum / (s.length : ℚ)) else none

/-! ## Grouping (`groupby(...).sum()` pipelines)

pandas `groupby` with its defaults (`sort=True`, `dropna=True`) emits one
output row per distinct non-null key, keys in ascending order; `sum()` adds
the value column over each key's rows. -/

/-- The ascending distinct non-null keys of a `groupby(keyCol)` call:
rows whose key is NaN are dropped (`dropna=True`), and the groups are
emitted in ascending key order (`sort=True`). -/
def groupKeys {K : Type} [LinearOrder K] (T : List Row) (key : Row → Option K) :
    List K :=
  sortAsc (T.filterMap key).dedup

/-- `groupby(keyCol, as_index=False)[valCol].sum()`: one `(key, total)` row
per distinct non-null key, in ascending key order. -/
def groupSum {K : Type} [LinearOrder K] (T : List Row) (key : Row → Option K)
    (val : Row → ℚ) : List (K × ℚ) :=
  (groupKeys T key).map
    (fun k => (k, ((T.filter (fun r => key r = some k)).map val).sum))

/-! ## Sorting and truncation (`sort_values(..., ascending=False).head(n)`) -/

/-- Descending insertion by a numeric sort column: the new element goes
before the first element whose column value is not greater. -/
def insertDesc {α : Type} (val : α → ℚ) (x : α) : List α → List α
  | [] => [x]
  | y :: ys => if val x < val y then y :: insertDesc val x ys else x :: y :: ys

/-- `sort_values(by=col, ascending=False)` modelled as a deterministic sort
by the column, descending. -/
def sortDesc {α : Type} (val : α → ℚ) : List α → List α
  | [] => []
  | x :: xs => insertDesc val x (sortDesc val xs)

/-- `sort_values(by=col, ascending=False).head(k)`: sort descending by the
column, then keep the first `k` rows (`head` never errors when `k` exceeds
the row count). -/
def sortAndLimit {α : Type} (val : α → ℚ) (l : List α) (k : ℕ) : List α :=
  (sortDesc val l).take k

/-! ## Helper lemmas about the two insertion sorts -/

theorem insertAsc_perm {α : Type} [LinearOrder α] (x : α) (l : List α) :
    (insertAsc x l).Perm (x :: l) := by
  induction l with
  | nil => exact List.Perm.refl _
  | cons y ys ih =>
    by_cases h : x ≤ y
    · simp [insertAsc, h]
    · simp only [insertAsc, if_neg h]
      exact (ih.cons y).trans (List.Perm.swap x y ys)

theorem sortAsc_perm {α : Type} [LinearOrder α] (l : List α) :
    (sortAsc l).Perm l := by
  induction l with
  | nil => exact List.Perm.refl _
  | cons x xs ih => exact (insertAsc_perm x (sortAsc xs)).trans (ih.cons x)

theorem insertAsc_pairwise {α : Type} [LinearOrder α] (x : α) (l : List α)
    (h : l.Pairwise (· ≤ ·)) : (insertAsc x l).Pairwise (· ≤ ·) := by
  induction l with
  | nil => simp [insertAsc]
  | cons y ys ih =>
    obtain ⟨hy, hys⟩ := List.pairwise_cons.mp h
    by_cases hxy : x ≤ y
    · simp only [insertAsc, if_pos hxy]
      refine List.pairwise_cons.mpr ⟨?_, h⟩
      intro b hb
      rcases List.mem_cons.mp hb with rfl | hb
      · exact hxy
      · exact hxy.trans (hy b hb)
    · simp only [insertAsc, if_neg hxy]
      refine List.pairwise_cons.mpr ⟨?_, ih hys⟩
      intro b hb
      rcases List.mem_cons.mp ((insertAsc_perm x ys).mem_iff.mp hb) with rfl | hb
      · exact le_of_not_le hxy
      · exact hy b hb

theorem sortAsc_pairwise {α : Type} [LinearOrder α] (l : List α) :
    (sortAsc l).Pairwise (· ≤ ·) := by
  induction l with
  | nil => exact List.Pairwise.nil
  | cons x xs ih => exact insertAsc_pairwise x (sortAsc xs) ih

theorem insertDesc_perm {α : Type} (val : α → ℚ) (x : α) (l : List α) :
    (insertDesc val x l).Perm (x :: l) := by
  induction l with
  | nil => exact List.Perm.refl _
  | cons y ys ih =>
    by_cases h : val x < val y
    · simp only [insertDesc, if_pos h]
      exact (ih.cons y).trans (List.Perm.swap x y ys)
    · simp only [insertDesc, if_neg h]
      exact List.Perm.refl _

theorem sortDesc_perm {α : Type} (val : α → ℚ) (l : List α) :
    (sortDesc val l).Perm l := by
  induction l with
  | nil => exact List.Perm.refl _
  | cons x xs ih => exact (insertDesc_perm val x (sortDesc val xs)).trans (ih.cons x)

theorem insertDesc_pairwise {α : Type} (val : α → ℚ) (x : α) (l : List α)
    (h : l.Pairwise (fun a b => val b ≤ val a)) :
    (insertDesc val x l).Pairwise (fun a b => val b ≤ val a) := by
  induction l with
  | nil => simp [insertDesc]
  | cons y ys ih =>
    obtain ⟨hy, hys⟩ := List.pairwise_cons.mp h
    by_cases hxy : val x < val y
    · simp only [insertDesc, if_pos hxy]
      refine List.pairwise_cons.mpr ⟨?_, ih hys⟩
      intro b hb
      rcases List.mem_cons.mp ((insertDesc_perm val x ys).mem_iff.mp hb) with rfl | hb
      · exact le_of_lt hxy
      · exact hy b hb
    · simp only [insertDesc, if_neg hxy]
      refine List.pairwise_cons.mpr ⟨?_, h⟩
      intro b hb
      rcases List.mem_cons.mp hb with rfl | hb
      · exact le_of_not_lt hxy
      · exact (hy b hb).trans (le_of_not_lt hxy)

theorem sortDesc_pairwise {α : Type} (val : α → ℚ) (l : List α) :
    (sortDesc val l).Pairwise (fun a b => val b ≤ val a) := by
  induction l with
  | nil => exact List.Pairwise.nil
  | cons x xs ih => exact insertDesc_pairwise val x (sortDesc val xs) ih

theorem insertDesc_of_le {α : Type} (val : α → ℚ) (x : α) (l : List α)
    (h : ∀ y ∈ l, val y ≤ val x) : insertDesc val x l = x :: l := by
  cases l with
  | nil => rfl
  | cons y ys =>
    have : ¬ val x < val y := not_lt.mpr (h y (List.mem_cons_self y ys))
    simp [insertDesc, this]

theorem sortDesc_of_sorted {α : Type} (val : α → ℚ) (l : List α)
    (h : l.Pairwise (fun a b => val b ≤ val a)) : sortDesc val l = l := by
  induction l with
  | nil => rfl
  | cons x xs ih =>
    obtain ⟨hx, hxs⟩ := List.pairwise_cons.mp h
    rw [sortDesc, ih hxs, insertDesc_of_le val x xs hx]

/-! ## Sample rows used by concrete theorems -/

/-- A complete row (no missing cells). -/
def rUS1 : Row :=
  ⟨some 2020, some "US", some "A", some "ProdA", 100, 10, some "High", some "January"⟩

/-- A second complete row. -/
def rUS2 : Row :=
  ⟨some 2021, some "US", some "A", some "ProdA", 200, 40, some "Low", some "February"⟩

/-- A row whose `Year` cell is missing (NaN). -/
def rNullYear : Row :=
  ⟨none, some "US", some "A", some "ProdA", 7, 1, none, none⟩

/-- A row whose `Product` cell is missing (NaN) but that carries Sales = 5. -/
def rNullProduct : Row :=
  ⟨some 2020, some "US", some "A", none, 5, 2, none, none⟩

/-- A January row with Sales = 10. -/
def rJan : Row :=
  ⟨some 2020, some "US", some "A", some "ProdA", 10, 1, none, some "January"⟩

/-- A February row with Sales = 20. -/
def rFeb : Row :=
  ⟨some 2020, some "US", some "A", some "ProdA", 20, 2, none, some "February"⟩

/-! ## Claims about the filter step -/

/-- C4: for every Table and FilterSpec, `applyFilter` returns a subsequence
of the table's rows: every retained row occurs in the table, and the
retained rows keep their original relative order. -/
theorem applyFilter_sublist (T : List Row) (f : FilterSpec) :
    (applyFilter T f).Sublist T :=
  List.filter_sublist T

/-- A value of a row of `T` is always among the computed options of its
column, so under the default (all options selected) spec a non-null cell
always passes its `isin` mask. -/
theorem mem_year_options {T : List Row} {r : Row} {y : Int}
    (hr : r ∈ T) (hy : r.year = some y) : y ∈ year_options T :=
  (sortAsc_perm _).mem_iff.mpr (List.mem_dedup.mpr
    (List.mem_filterMap.mpr ⟨r, hr, hy⟩))

theorem mem_country_options {T : List Row} {r : Row} {c : String}
    (hr : r ∈ T) (hc : r.country = some c) : c ∈ country_options T :=
  (sortAsc_perm _).mem_iff.mpr (List.mem_dedup.mpr
    (List.mem_filterMap.mpr ⟨r, hr, hc⟩))

theorem mem_segment_options {T : List Row} {r : Row} {s : String}
    (hr : r ∈ T) (hs : r.segment = some s) : s ∈ segment_options T :=
  (sortAsc_perm _).mem_iff.mpr (List.mem_dedup.mpr
    (List.mem_filterMap.mpr ⟨r, hr, hs⟩))

/-- C5 (amended): filtering with the app's default FilterSpec (every option
of each filter column selected) is not the identity in general: it returns
the table with exactly the rows whose `Year`, `Country` and `Segment` cells
are all present; it is the identity only on tables with no missing cell in
those three columns. -/
theorem applyFilter_defaultSpec (T : List Row) :
    applyFilter T (defaultSpec T) =
      T.filter (fun r => r.year.isSome && r.country.isSome && r.segment.isSome) := by
  unfold applyFilter
  apply List.filter_congr
  intro r hr
  cases hy : r.year with
  | none => simp [rowPasses, isin, hy]
  | some y =>
    cases hc : r.country with
    | none => simp [rowPasses, isin, hy, hc]
    | some c =>
      cases hs : r.segment with
      | none => simp [rowPasses, isin, hy, hc, hs]
      | some s =>
        have h1 := mem_year_options hr hy
        have h2 := mem_country_options hr hc
        have h3 := mem_segment_options hr hs
        simp [rowPasses, isin, hy, hc, hs, defaultSpec, List.contains, List.elem_iff,
          h1, h2, h3]

/-- C5 (counterexample): on the one-row table whose row has a missing `Year`,
filtering with the default FilterSpec drops the row, so the result is not
the input table. -/
theorem applyFilter_defaultSpec_not_identity :
    applyFilter [rNullYear] (defaultSpec [rNullYear]) ≠ [rNullYear] := by
  simp [applyFilter, rowPasses, isin, rNullYear]

/-- C6: a row with a missing (null) value in one of the constrained filter
columns (`Year`, `Country`, `Segment`) is never retained by `applyFilter`,
whatever the table and the FilterSpec. -/
theorem null_in_constrained_column_excluded (T : List Row) (f : FilterSpec)
    (r : Row) (h : r.year = none ∨ r.country = none ∨ r.segment = none) :
    r ∉ applyFilter T f := by
  intro hmem
  rw [applyFilter] at hmem
  have hp := List.of_mem_filter hmem
  rcases h with h | h | h <;> simp [rowPasses, isin, h] at hp

/-- Witness for C6 at a concrete input: the row with missing `Year` is
excluded from the filtered one-row table. -/
theorem null_in_constrained_column_excluded_witness :
    (rNullYear.year = none ∨ rNullYear.country = none ∨ rNullYear.segment = none) ∧
      rNullYear ∉ applyFilter [rNullYear] (defaultSpec [rNullYear]) :=
  ⟨Or.inl rfl,
    null_in_constrained_column_excluded [rNullYear] (defaultSpec [rNullYear])
      rNullYear (Or.inl rfl)⟩

/-! ## Claims about the trend metrics -/

/-- C1 (code evaluation at the failing input): on the series
[(2020, 0), (2021, 50)] the app's unguarded percent-change computation
`(sales_change / Sales.iloc[0]) * 100` silently evaluates to IEEE `+inf`;
no DivisionByZero condition is signalled anywhere in the code. -/
theorem pctChange_zero_baseline_silent_inf :
    trend_pctChange [((2020 : Int), (0 : ℚ)), ((2021 : Int), (50 : ℚ))] =
      some PyNum.posInf := by
  norm_num [trend_pctChange, seriesVals, pydiv, pymul]

/-- C2 (counterexample): on the single-point series [(2020, 5)] the claim
says latest is reported as 5, but the whole metrics block is guarded by
`len(sales_trend_df) > 1`, so the code reports no latest value at all. -/
theorem single_point_latest_not_reported :
    trend_latest [((2020 : Int), (5 : ℚ))] ≠ some 5 := by
  simp [trend_latest]

/-- C2 (amended): on every single-point series the code reports all four
trend metrics — latest, delta, pctChange and average — as absent (not
zero), because the metrics block only runs when the series has more than
one point. -/
theorem single_point_metrics_all_absent (p : Int × ℚ) :
    trend_latest [p] = none ∧ trend_delta [p] = none ∧
      trend_pctChange [p] = none ∧ trend_average [p] = none := by
  refine ⟨?_, ?_, ?_, ?_⟩ <;>
    simp [trend_latest, trend_delta, trend_pctChange, trend_average]

/-- C3: on the series [(2020, 100), (2021, 150)] the code reports
latest = 150, delta = 150 - 100 = 50, pctChange = (50 / 100) * 100 = 50,
and average = (100 + 150) / 2 = 125. -/
theorem trend_metrics_two_point_example :
    trend_latest [((2020 : Int), (100 : ℚ)), ((2021 : Int), (150 : ℚ))] = some 150 ∧
      trend_delta [((2020 : Int), (100 : ℚ)), ((2021 : Int), (150 : ℚ))] = some 50 ∧
      trend_pctChange [((2020 : Int), (100 : ℚ)), ((2021 : Int), (150 : ℚ))] =
        some (PyNum.fin 50) ∧
      trend_average [((2020 : Int), (100 : ℚ)), ((2021 : Int), (150 : ℚ))] =
        some 125 := by
  refine ⟨?_, ?_, ?_, ?_⟩ <;>
    norm_num [trend_latest, trend_delta, trend_pctChange, trend_average,
      seriesVals, pydiv, pymul]

/-! ## Claims about grouping -/

/-- Adding a constant to exactly one summand of a sum over a duplicate-free
list that contains the distinguished index adds the constant once. -/
theorem sum_map_ite_add {K : Type} [DecidableEq K] (k0 : K) (c : ℚ) (g : K → ℚ) :
    ∀ ks : List K, ks.Nodup → k0 ∈ ks →
      (ks.map (fun k => if k = k0 then c + g k else g k)).sum = c + (ks.map g).sum := by
  intro ks
  induction ks with
  | nil => intro _ hm; cases hm
  | cons a as ih =>
    intro hn hm
    obtain ⟨ha, hn'⟩ := List.nodup_cons.mp hn
    by_cases h : a = k0
    · subst h
      have hcongr : as.map (fun k => if k = a then c + g k else g k) = as.map g := by
        apply List.map_congr_left
        intro k hk
        have hne : k ≠ a := fun e => ha (e ▸ hk)
        simp [hne]
      simp [hcongr]
      ring
    · have hm' : k0 ∈ as := by
        rcases List.mem_cons.mp hm with e | hmem
        · exact absurd e.symm h
        · exact hmem
      simp [h, ih hn' hm']
      ring

/-- The group fibers of a duplicate-free key list covering every non-null
key of the table partition the rows with a non-null key, so the fiber sums
add up to the sum over those rows. -/
theorem fiberSum {K : Type} [DecidableEq K] (key : Row → Option K) (val : Row → ℚ) :
    ∀ (l : List Row) (ks : List K), ks.Nodup →
      (∀ r ∈ l, ∀ k, key r = some k → k ∈ ks) →
      (ks.map (fun k => ((l.filter (fun r => key r = some k)).map val).sum)).sum =
        ((l.filter (fun r => (key r).isSome)).map val).sum := by
  intro l
  induction l with
  | nil => intro ks _ _; simp
  | cons r rs ih =>
    intro ks hn hcov
    have hcov' : ∀ r' ∈ rs, ∀ k, key r' = some k → k ∈ ks :=
      fun r' h => hcov r' (List.mem_cons_of_mem r h)
    cases hk : key r with
    | none =>
      have h1 : ks.map (fun k => (((r :: rs).filter (fun r' => key r' = some k)).map val).sum)
          = ks.map (fun k => ((rs.filter (fun r' => key r' = some k)).map val).sum) := by
        apply List.map_congr_left
        intro k _
        simp [List.filter_cons, hk]
      rw [h1, ih ks hn hcov']
      simp [List.filter_cons, hk]
    | some k0 =>
      have hk0 : k0 ∈ ks := hcov r (List.mem_cons_self r rs) k0 hk
      have h1 : ks.map (fun k => (((r :: rs).filter (fun r' => key r' = some k)).map val).sum)
          = ks.map (fun k =>
              if k = k0 then
                val r + ((rs.filter (fun r' => key r' = some k)).map val).sum
              else ((rs.filter (fun r' => key r' = some k)).map val).sum) := by
        apply List.map_congr_left
        intro k _
        by_cases h : k = k0
        · subst h
          simp [List.filter_cons, hk]
        · have hne : ¬ key r = some k := by
            rw [hk]
            intro e
            exact h (Option.some.inj e).symm
          simp [List.filter_cons, hne, h]
      rw [h1, sum_map_ite_add k0 (val r) _ ks hn hk0, ih ks hn hcov']
      simp [List.filter_cons, hk]

/-- C7 (amended): for every table, group-key column and value column, the
sum of the per-group totals of `groupSum` equals the sum of the value
column over the rows whose group key is present — not over the entire
table, because `groupby` drops rows whose key is NaN (`dropna=True`). -/
theorem groupSum_total {K : Type} [LinearOrder K] (T : List Row)
    (key : Row → Option K) (val : Row → ℚ) :
    ((groupSum T key val).map Prod.snd).sum =
      ((T.filter (fun r => (key r).isSome)).map val).sum := by
  have hnd : (groupKeys T key).Nodup :=
    (sortAsc_perm _).symm.nodup (List.nodup_dedup _)
  have hcov : ∀ r ∈ T, ∀ k, key r = some k → k ∈ groupKeys T key := by
    intro r hr k hk
    exact (sortAsc_perm _).mem_iff.mpr
      (List.mem_dedup.mpr (List.mem_filterMap.mpr ⟨r, hr, hk⟩))
  have h := fiberSum key val T (groupKeys T key) hnd hcov
  unfold groupSum
  rw [List.map_map]
  exact h

/-- C7 (counterexample): on the one-row table whose row has a missing
`Product` and Sales = 5, grouping by `Product` and summing `Sales` yields
no groups at all, so the group totals add to 0 while the whole table's
Sales column adds to 5. -/
theorem groupSum_drops_null_key_row :
    ((groupSum [rNullProduct] Row.product Row.sales).map Prod.snd).sum ≠
      ([rNullProduct].map Row.sales).sum := by
  norm_num [groupSum, groupKeys, rNullProduct, sortAsc]

/-- C10: `groupSum` always emits its groups in ascending order of the
group-key values (pandas `groupby` defaults to `sort=True`); in particular
grouping the January/February sample by `Month Name` puts February before
January — alphabetical order, not calendar order. -/
theorem groupSum_keys_ascending_months_alphabetical {K : Type} [LinearOrder K]
    (T : List Row) (key : Row → Option K) (val : Row → ℚ) :
    ((groupSum T key val).map Prod.fst).Pairwise (· ≤ ·) ∧
      groupSum [rJan, rFeb] Row.monthName Row.sales =
        [(("February" : String), (20 : ℚ)), (("January" : String), (10 : ℚ))] := by
  constructor
  · have hfst : (groupSum T key val).map Prod.fst = groupKeys T key := by
      unfold groupSum
      rw [List.map_map]
      exact (List.map_congr_left fun k _ => rfl).trans (List.map_id _)
    rw [hfst]
    exact sortAsc_pairwise _
  · have h : ¬ (("January" : String) ≤ "February") := by
      rw [String.le_iff_toList_le]
      decide
    have hne : ("January" : String) ≠ "February" := by decide
    have hk : groupKeys [rJan, rFeb] Row.monthName = ["February", "January"] := by
      simp [groupKeys, rJan, rFeb, sortAsc, insertAsc, h]
    rw [groupSum, hk]
    simp only [List.map_cons, List.map_nil, List.filter_cons, List.filter_nil]
    norm_num [rJan, rFeb, hne, Ne.symm hne]

/-! ## Claims about sorting and truncation -/

/-- C8: sorting an aggregation result descending by its value column and
keeping the first `k` rows returns exactly `min k |result|` rows, each row's
sort value is at least the next one's, and re-applying the same
sort-and-limit to its own output returns that output unchanged. -/
theorem sortAndLimit_count_monotone_idempotent {α : Type} (val : α → ℚ)
    (l : List α) (k : ℕ) :
    (sortAndLimit val l k).length = min k l.length ∧
      (sortAndLimit val l k).Pairwise (fun a b => val b ≤ val a) ∧
      sortAndLimit val (sortAndLimit val l k) k = sortAndLimit val l k := by
  have hsorted : (sortAndLimit val l k).Pairwise (fun a b => val b ≤ val a) :=
    List.Pairwise.sublist (List.take_sublist k (sortDesc val l))
      (sortDesc_pairwise val l)
  refine ⟨?_, hsorted, ?_⟩
  · rw [sortAndLimit, List.length_take, (sortDesc_perm val l).length_eq]
  · have hlen : (sortAndLimit val l k).length ≤ k := by
      rw [sortAndLimit, List.length_take]
      exact min_le_left _ _
    rw [sortAndLimit, sortDesc_of_sorted val _ hsorted,
      List.take_of_length_le hlen]

end Dashboard
